import Mathlib

/-!
Verification of the cluster operations module (ldops/cluster.py): the
cluster-view aggregator, the failure-domain grouping algorithm, and the
node lookup helpers. Python dictionaries keyed by location are embedded as
association lists in insertion order, Python sets as duplicate-free lists in
insertion order, and the stable builtin sort as insertion sort.
-/

namespace Ldops

/-- Modelled from the spec: the location-scope enumeration (node, rack, row,
datacenter, region) is defined outside this module, in the common type
definitions of the repository; larger numeric values denote coarser
granularity. -/
inductive LocationScope where
  | NODE
  | RACK
  | ROW
  | DATACENTER
  | REGION
deriving DecidableEq

/-- Modelled from the spec: the numeric value of each scope level, ordered so
that coarser levels carry larger values. -/
def LocationScope.value : LocationScope → Nat
  | .NODE => 1
  | .RACK => 2
  | .ROW => 3
  | .DATACENTER => 4
  | .REGION => 5

/-- All defined location-scope levels, as the enumeration lists them. -/
def allLocationScopes : List LocationScope :=
  [.NODE, .RACK, .ROW, .DATACENTER, .REGION]

/-- Comparison used by sorted(LocationScope, key=value, reverse=True). -/
def scopeGE (a b : LocationScope) : Prop := b.value ≤ a.value

instance : DecidableRel scopeGE :=
  fun a b => inferInstanceAs (Decidable (b.value ≤ a.value))

/-- The scope levels sorted from coarsest (largest value) to finest, as
computed inside group_nodes_by_scope. -/
def scopesCoarsestFirst : List LocationScope :=
  List.insertionSort scopeGE allLocationScopes

/-- One node static-configuration record as delivered by the node-config
query: index, name, data address (opaque payload here), and the per-scope
location labels. -/
structure NodeConfig where
  node_index : Nat
  name : String
  data_address : Nat
  location_per_scope : LocationScope → Option String

/-- Node identity record (index, address, name) as built by
group_nodes_by_scope from a NodeConfig. -/
structure NodeID where
  node_index : Nat
  address : Nat
  name : String
deriving DecidableEq

/-- The NodeID built from a NodeConfig at lines 216-222 of cluster.py. -/
def nodeIDOfConfig (nc : NodeConfig) : NodeID :=
  { node_index := nc.node_index, address := nc.data_address, name := nc.name }

/-- Grouping key: the node index itself when the scope is NODE, otherwise the
tuple of location labels. In Python an int key and a tuple key can never be
equal, which the sum type reflects. -/
inductive GroupKey where
  | byNode (node_index : Nat)
  | byLocation (labels : List String)
deriving DecidableEq

/-- The grouping key computed for one node at lines 205-214 of cluster.py. -/
def locationOf (scope : LocationScope) (nc : NodeConfig) : GroupKey :=
  if scope = .NODE then
    GroupKey.byNode nc.node_index
  else
    GroupKey.byLocation
      ((scopesCoarsestFirst.filter fun k => decide (scope.value ≤ k.value)).map
        fun k => (nc.location_per_scope k).getD "")

/-- The location key as the spec words it: enumerate all defined scope
levels, keep exactly those whose numeric value is at least the target scope
value, order them coarsest (largest value) first, and read the node label at
each kept level with the empty string substituted when absent. -/
def specLocationKey (scope : LocationScope) (nc : NodeConfig) : List String :=
  (List.insertionSort scopeGE
      (allLocationScopes.filter fun k => decide (scope.value ≤ k.value))).map
    fun k => (nc.location_per_scope k).getD ""

/-- Set insertion: append the element unless already present (Python
set.add, with sets embedded as duplicate-free lists in insertion order). -/
def dedupAppend {α : Type} [DecidableEq α] (l : List α) (x : α) : List α :=
  if x ∈ l then l else l ++ [x]

/-- Insertion-order deduplication of a list, keeping first occurrences. -/
def dedupKeepFirst {α : Type} [DecidableEq α] (l : List α) : List α :=
  l.foldl dedupAppend []

/-- One step of the accumulation loop: add the NodeID to the set stored under
the key, creating the entry at the end when the key is new (Python
defaultdict(set) insertion semantics). -/
def addToGroup (acc : List (GroupKey × List NodeID)) (k : GroupKey) (v : NodeID) :
    List (GroupKey × List NodeID) :=
  match acc with
  | [] => [(k, [v])]
  | (k₀, vs) :: rest =>
    if k₀ = k then (k₀, dedupAppend vs v) :: rest
    else (k₀, vs) :: addToGroup rest k v

/-- The accumulation loop of group_nodes_by_scope (lines 198-222): fold the
node configurations into the keyed collection of NodeID sets. -/
def accumulateGroups (scope : LocationScope) (ncs : List NodeConfig) :
    List (GroupKey × List NodeID) :=
  ncs.foldl (fun acc nc => addToGroup acc (locationOf scope nc) (nodeIDOfConfig nc)) []

/-- Lookup of the member set stored under a key, the empty set when the key
is absent (dictionary read used only by the proofs). -/
def groupFor (acc : List (GroupKey × List NodeID)) (k : GroupKey) : List NodeID :=
  match acc with
  | [] => []
  | (k₀, vs) :: rest => if k₀ = k then vs else groupFor rest k

/-- Member ordering: by node index (the attrgetter sort key). -/
def nodeLE (a b : NodeID) : Prop := a.node_index ≤ b.node_index

instance : DecidableRel nodeLE :=
  fun a b => inferInstanceAs (Decidable (a.node_index ≤ b.node_index))

instance : IsTotal NodeID nodeLE := ⟨fun a b => Nat.le_total a.node_index b.node_index⟩

instance : IsTrans NodeID nodeLE := ⟨fun _ _ _ h₁ h₂ => Nat.le_trans h₁ h₂⟩

/-- Sorting the members of one group by node index. -/
def sortMembers (vs : List NodeID) : List NodeID :=
  List.insertionSort nodeLE vs

/-- The index of the first member of a group (the outer sort key x[0]); zero
for an empty group, which never occurs in the output. -/
def headIndex (g : List NodeID) : Nat :=
  match g with
  | [] => 0
  | x :: _ => x.node_index

/-- Group ordering: by the node index of the first (smallest) member. -/
def groupLE (g₁ g₂ : List NodeID) : Prop := headIndex g₁ ≤ headIndex g₂

instance : DecidableRel groupLE :=
  fun a b => inferInstanceAs (Decidable (headIndex a ≤ headIndex b))

instance : IsTotal (List NodeID) groupLE := ⟨fun a b => Nat.le_total (headIndex a) (headIndex b)⟩

instance : IsTrans (List NodeID) groupLE := ⟨fun _ _ _ h₁ h₂ => Nat.le_trans h₁ h₂⟩

/-- The emission step of group_nodes_by_scope (lines 224-232): sort each
accumulated set by node index, then sort the groups by first-member index. -/
def emitGroups (acc : List (GroupKey × List NodeID)) : List (List NodeID) :=
  List.insertionSort groupLE (acc.map fun kv => sortMembers kv.2)

/-- The grouping algorithm of group_nodes_by_scope (lines 186-232), as a
function of the already-fetched node configurations and the target scope
taken from the replication info. -/
def group_nodes_by_scope (scope : LocationScope) (ncs : List NodeConfig) :
    List (List NodeID) :=
  emitGroups (accumulateGroups scope ncs)

/-- Errors raised by the admin-API calls: the NotSupported signal is
distinguishable from every other failure, which stays opaque. -/
inductive AdminError where
  | notSupported
  | other (code : Nat)
deriving DecidableEq

/-- Opaque runtime-state record of one node. -/
abbrev NodeState := Nat

/-- Opaque maintenance record. -/
abbrev Maintenance := Nat

/-- Response carrying the node configurations. -/
structure NodesConfigResponse where
  nodes : List NodeConfig

/-- Response carrying the node states. -/
structure NodesStateResponse where
  states : List NodeState

/-- Response carrying the active maintenances. -/
structure MaintenancesResponse where
  maintenances : List Maintenance

/-- The aggregate snapshot returned by get_cluster_view. -/
structure ClusterView where
  nodes_config : List NodeConfig
  nodes_state : List NodeState
  maintenances : List Maintenance

/-- The tail of get_cluster_view after the maintenance result has been
resolved: inspect the node-config result, then the node-state result,
raising either, and only then build the view (lines 171-183). -/
def finishClusterView
    (nodes_config_resp : Except AdminError NodesConfigResponse)
    (nodes_state_resp : Except AdminError NodesStateResponse)
    (maintenances : List Maintenance) : Except AdminError ClusterView :=
  match nodes_config_resp with
  | .error e => .error e
  | .ok ncr =>
    match nodes_state_resp with
    | .error e => .error e
    | .ok nsr => .ok ⟨ncr.nodes, nsr.states, maintenances⟩

/-- get_cluster_view (lines 150-183), as a function of the three gathered
results, each either a response or the exception the call raised
(asyncio.gather with return_exceptions=True). The maintenance result is
inspected first: NotSupported degrades to an empty list, any other
exception is re-raised. -/
def get_cluster_view
    (nodes_config_resp : Except AdminError NodesConfigResponse)
    (nodes_state_resp : Except AdminError NodesStateResponse)
    (maintenances_resp : Except AdminError MaintenancesResponse) :
    Except AdminError ClusterView :=
  match maintenances_resp with
  | .error .notSupported => finishClusterView nodes_config_resp nodes_state_resp []
  | .error e => .error e
  | .ok r => finishClusterView nodes_config_resp nodes_state_resp r.maintenances

/-- The maintenance result did not hard-fail: it either succeeded or raised
exactly the NotSupported signal. -/
def maintSoft (maintenances_resp : Except AdminError MaintenancesResponse) : Prop :=
  maintenances_resp = .error .notSupported ∨ ∃ r, maintenances_resp = .ok r

/-- Node identity as returned by the lookup helpers. -/
structure Node where
  node_index : Nat
  data_addr : Nat
  name : String
deriving DecidableEq

/-- Modelled from the spec: socket-address parsing is external to this
module; the address payload is opaque here, so the conversion from the wire
record is the identity. -/
def socketAddressFromThrift (a : Nat) : Nat := a

/-- The private helper building a Node from a NodeConfig (lines 66-71). -/
def get_node_by_node_config (nc : NodeConfig) : Node :=
  { node_index := nc.node_index
    data_addr := socketAddressFromThrift nc.data_address
    name := nc.name }

/-- Error raised by the lookup helpers when no node matches. -/
inductive LookupError where
  | nodeNotFound
deriving DecidableEq

/-- get_node_by_node_index (lines 81-101), as a function of the response of
the index-filtered node-config query: not-found on an empty list, otherwise
the node built from the first record. -/
def get_node_by_node_index (resp : NodesConfigResponse) : Except LookupError Node :=
  match resp.nodes with
  | [] => .error .nodeNotFound
  | nc :: _ => .ok (get_node_by_node_config nc)

/-- get_node_by_name (lines 104-124), as a function of the response of the
name-filtered node-config query. -/
def get_node_by_name (resp : NodesConfigResponse) : Except LookupError Node :=
  match resp.nodes with
  | [] => .error .nodeNotFound
  | nc :: _ => .ok (get_node_by_node_config nc)

/-- Location labels of the two rack-r1 nodes in the worked scenario. -/
def locR1D1 : LocationScope → Option String
  | .RACK => some "r1"
  | .DATACENTER => some "d1"
  | _ => none

/-- Location labels of the rack-r2 node in the worked scenario. -/
def locR2D1 : LocationScope → Option String
  | .RACK => some "r2"
  | .DATACENTER => some "d1"
  | _ => none

/-- Location labels of the rack-r3 node in the worked scenario. -/
def locR3D2 : LocationScope → Option String
  | .RACK => some "r3"
  | .DATACENTER => some "d2"
  | _ => none

/-- Node A of the worked scenario. -/
def ncA : NodeConfig :=
  { node_index := 1, name := "A", data_address := 11, location_per_scope := locR1D1 }

/-- Node B of the worked scenario. -/
def ncB : NodeConfig :=
  { node_index := 2, name := "B", data_address := 12, location_per_scope := locR1D1 }

/-- Node C of the worked scenario. -/
def ncC : NodeConfig :=
  { node_index := 3, name := "C", data_address := 13, location_per_scope := locR2D1 }

/-- Node D of the worked scenario. -/
def ncD : NodeConfig :=
  { node_index := 4, name := "D", data_address := 14, location_per_scope := locR3D2 }

theorem mem_dedupAppend {α : Type} [DecidableEq α] (acc : List α) (a x : α) :
    x ∈ dedupAppend acc a ↔ x ∈ acc ∨ x = a := by
  unfold dedupAppend
  by_cases h : a ∈ acc
  · simp only [if_pos h]
    exact ⟨Or.inl, fun hx => hx.elim id fun he => he ▸ h⟩
  · simp [if_neg h]

theorem nodup_dedupAppend {α : Type} [DecidableEq α] (acc : List α) (a : α)
    (h : acc.Nodup) : (dedupAppend acc a).Nodup := by
  unfold dedupAppend
  by_cases hm : a ∈ acc
  · simpa [if_pos hm] using h
  · rw [if_neg hm]
    refine List.Nodup.append h (List.nodup_singleton a) ?_
    intro x hx hx'
    rw [List.mem_singleton] at hx'
    subst hx'
    exact hm hx

theorem mem_foldl_dedupAppend {α : Type} [DecidableEq α] (l : List α) (acc : List α)
    (x : α) : x ∈ l.foldl dedupAppend acc ↔ x ∈ acc ∨ x ∈ l := by
  induction l generalizing acc with
  | nil => simp
  | cons a t ih =>
    simp only [List.foldl_cons, ih, mem_dedupAppend, List.mem_cons]
    tauto

theorem nodup_foldl_dedupAppend {α : Type} [DecidableEq α] (l : List α)
    (acc : List α) (h : acc.Nodup) : (l.foldl dedupAppend acc).Nodup := by
  induction l generalizing acc with
  | nil => simpa
  | cons a t ih => exact ih _ (nodup_dedupAppend acc a h)

theorem mem_dedupKeepFirst {α : Type} [DecidableEq α] (l : List α) (x : α) :
    x ∈ dedupKeepFirst l ↔ x ∈ l := by
  unfold dedupKeepFirst
  simp [mem_foldl_dedupAppend]

theorem nodup_dedupKeepFirst {α : Type} [DecidableEq α] (l : List α) :
    (dedupKeepFirst l).Nodup :=
  nodup_foldl_dedupAppend l [] List.nodup_nil

theorem foldl_dedupAppend_eq_append {α : Type} [DecidableEq α] (l : List α)
    (acc : List α) (h : (acc ++ l).Nodup) : l.foldl dedupAppend acc = acc ++ l := by
  induction l generalizing acc with
  | nil => simp
  | cons a t ih =>
    have hna : a ∉ acc := by
      intro hc
      exact (List.disjoint_of_nodup_append h) hc (List.mem_cons_self a t)
    have hstep : dedupAppend acc a = acc ++ [a] := by
      simp [dedupAppend, hna]
    have h' : ((acc ++ [a]) ++ t).Nodup := by
      simpa [List.append_assoc] using h
    simp only [List.foldl_cons, hstep, ih (acc ++ [a]) h']
    simp

theorem dedupKeepFirst_of_nodup {α : Type} [DecidableEq α] (l : List α)
    (h : l.Nodup) : dedupKeepFirst l = l := by
  unfold dedupKeepFirst
  simpa using foldl_dedupAppend_eq_append l [] (by simpa)

theorem groupFor_addToGroup (acc : List (GroupKey × List NodeID)) (k v k') :
    groupFor (addToGroup acc k v) k' =
      if k = k' then dedupAppend (groupFor acc k') v else groupFor acc k' := by
  induction acc with
  | nil =>
    by_cases h : k = k' <;> simp [addToGroup, groupFor, h, dedupAppend]
  | cons p rest ih =>
    obtain ⟨k₀, vs⟩ := p
    by_cases h₀ : k₀ = k
    · subst h₀
      by_cases h' : k₀ = k' <;> simp [addToGroup, groupFor, h', ih]
    · by_cases h' : k₀ = k'
      · subst h'
        have : ¬k = k₀ := fun hc => h₀ hc.symm
        simp [addToGroup, groupFor, h₀, this]
      · simp [addToGroup, groupFor, h₀, h', ih]

theorem keys_addToGroup (acc : List (GroupKey × List NodeID)) (k v) :
    (addToGroup acc k v).map Prod.fst = dedupAppend (acc.map Prod.fst) k := by
  induction acc with
  | nil => simp [addToGroup, dedupAppend]
  | cons p rest ih =>
    obtain ⟨k₀, vs⟩ := p
    by_cases h₀ : k₀ = k
    · subst h₀
      simp [addToGroup, dedupAppend]
    · have hne : ¬k = k₀ := fun hc => h₀ hc.symm
      by_cases hm : k ∈ rest.map Prod.fst
      · simp [addToGroup, h₀, ih, dedupAppend, hm, hne]
      · simp [addToGroup, h₀, ih, dedupAppend, hm, hne]

theorem groupFor_foldl (scope : LocationScope) (ncs : List NodeConfig)
    (acc : List (GroupKey × List NodeID)) (k : GroupKey) :
    groupFor
        (ncs.foldl (fun a nc => addToGroup a (locationOf scope nc) (nodeIDOfConfig nc)) acc)
        k =
      ((ncs.filter fun nc => decide (locationOf scope nc = k)).map nodeIDOfConfig).foldl
        dedupAppend (groupFor acc k) := by
  induction ncs generalizing acc with
  | nil => rfl
  | cons nc t ih =>
    simp only [List.foldl_cons, ih, groupFor_addToGroup]
    by_cases h : locationOf scope nc = k
    · simp [List.filter_cons, h]
    · simp [List.filter_cons, h]

theorem groupFor_accumulate (scope : LocationScope) (ncs : List NodeConfig)
    (k : GroupKey) :
    groupFor (accumulateGroups scope ncs) k =
      dedupKeepFirst ((ncs.filter fun nc => decide (locationOf scope nc = k)).map
        nodeIDOfConfig) := by
  unfold accumulateGroups dedupKeepFirst
  simpa using groupFor_foldl scope ncs [] k

theorem keys_foldl (scope : LocationScope) (ncs : List NodeConfig)
    (acc : List (GroupKey × List NodeID)) :
    (ncs.foldl (fun a nc => addToGroup a (locationOf scope nc) (nodeIDOfConfig nc))
          acc).map Prod.fst =
      (ncs.map (locationOf scope)).foldl dedupAppend (acc.map Prod.fst) := by
  induction ncs generalizing acc with
  | nil => rfl
  | cons nc t ih =>
    simp only [List.foldl_cons, List.map_cons, ih, keys_addToGroup]

theorem keys_accumulate (scope : LocationScope) (ncs : List NodeConfig) :
    (accumulateGroups scope ncs).map Prod.fst =
      dedupKeepFirst (ncs.map (locationOf scope)) := by
  unfold accumulateGroups dedupKeepFirst
  simpa using keys_foldl scope ncs []

theorem nodup_keys_accumulate (scope : LocationScope) (ncs : List NodeConfig) :
    ((accumulateGroups scope ncs).map Prod.fst).Nodup := by
  rw [keys_accumulate]
  exact nodup_dedupKeepFirst _

theorem mem_keys_accumulate (scope : LocationScope) (ncs : List NodeConfig)
    (k : GroupKey) :
    k ∈ (accumulateGroups scope ncs).map Prod.fst ↔
      ∃ nc ∈ ncs, locationOf scope nc = k := by
  rw [keys_accumulate, mem_dedupKeepFirst]
  simp [eq_comm]

theorem mem_groupFor_accumulate (scope : LocationScope) (ncs : List NodeConfig)
    (k : GroupKey) (x : NodeID) :
    x ∈ groupFor (accumulateGroups scope ncs) k ↔
      ∃ nc ∈ ncs, locationOf scope nc = k ∧ nodeIDOfConfig nc = x := by
  rw [groupFor_accumulate, mem_dedupKeepFirst]
  simp only [List.mem_map, List.mem_filter, decide_eq_true_eq]
  tauto

theorem nodup_groupFor_accumulate (scope : LocationScope) (ncs : List NodeConfig)
    (k : GroupKey) : (groupFor (accumulateGroups scope ncs) k).Nodup := by
  rw [groupFor_accumulate]
  exact nodup_dedupKeepFirst _

theorem groupFor_of_mem (acc : List (GroupKey × List NodeID))
    (hk : (acc.map Prod.fst).Nodup) {k : GroupKey} {vs : List NodeID}
    (h : (k, vs) ∈ acc) : groupFor acc k = vs := by
  induction acc with
  | nil => cases h
  | cons p rest ih =>
    obtain ⟨k₀, vs₀⟩ := p
    rw [List.map_cons] at hk
    have hk₁ : k₀ ∉ rest.map Prod.fst := (List.nodup_cons.mp hk).1
    have hk₂ : (rest.map Prod.fst).Nodup := (List.nodup_cons.mp hk).2
    rcases List.mem_cons.mp h with heq | hmem
    · injection heq with h1 h2
      subst h1
      subst h2
      simp [groupFor]
    · have hkm : k ∈ rest.map Prod.fst :=
        List.mem_map.mpr ⟨(k, vs), hmem, rfl⟩
      have hne : k₀ ≠ k := fun hc => hk₁ (hc ▸ hkm)
      simp only [groupFor, if_neg hne]
      exact ih hk₂ hmem

theorem mem_sortMembers (vs : List NodeID) (x : NodeID) :
    x ∈ sortMembers vs ↔ x ∈ vs :=
  (List.perm_insertionSort nodeLE vs).mem_iff

theorem mem_group_iff (scope : LocationScope) (ncs : List NodeConfig)
    (g : List NodeID) :
    g ∈ group_nodes_by_scope scope ncs ↔
      ∃ kv ∈ accumulateGroups scope ncs, g = sortMembers kv.2 := by
  unfold group_nodes_by_scope emitGroups
  rw [(List.perm_insertionSort groupLE
      ((accumulateGroups scope ncs).map fun kv => sortMembers kv.2)).mem_iff]
  simp [eq_comm]

theorem mem_flatten_groups (scope : LocationScope) (ncs : List NodeConfig)
    (x : NodeID) :
    x ∈ (group_nodes_by_scope scope ncs).flatten ↔
      ∃ nc ∈ ncs, nodeIDOfConfig nc = x := by
  rw [List.mem_flatten]
  constructor
  · rintro ⟨g, hg, hx⟩
    obtain ⟨kv, hkv, rfl⟩ := (mem_group_iff scope ncs g).mp hg
    rw [mem_sortMembers] at hx
    obtain ⟨k, vs⟩ := kv
    have h2 : groupFor (accumulateGroups scope ncs) k = vs :=
      groupFor_of_mem _ (nodup_keys_accumulate scope ncs) hkv
    obtain ⟨nc, hnc, _, hid⟩ :=
      (mem_groupFor_accumulate scope ncs k x).mp (h2 ▸ hx)
    exact ⟨nc, hnc, hid⟩
  · rintro ⟨nc, hnc, rfl⟩
    have hkmem : locationOf scope nc ∈ (accumulateGroups scope ncs).map Prod.fst :=
      (mem_keys_accumulate scope ncs _).mpr ⟨nc, hnc, rfl⟩
    obtain ⟨kv, hkv, hfst⟩ := List.mem_map.mp hkmem
    refine ⟨sortMembers kv.2, (mem_group_iff scope ncs _).mpr ⟨kv, hkv, rfl⟩, ?_⟩
    rw [mem_sortMembers]
    obtain ⟨k, vs⟩ := kv
    have hk : k = locationOf scope nc := hfst
    have h2 : groupFor (accumulateGroups scope ncs) k = vs :=
      groupFor_of_mem _ (nodup_keys_accumulate scope ncs) hkv
    have h3 : nodeIDOfConfig nc ∈ groupFor (accumulateGroups scope ncs) k :=
      (mem_groupFor_accumulate scope ncs k _).mpr ⟨nc, hnc, hk.symm, rfl⟩
    exact h2 ▸ h3

theorem config_injOn (ncs : List NodeConfig)
    (hidx : (ncs.map NodeConfig.node_index).Nodup) :
    ∀ nc₁ ∈ ncs, ∀ nc₂ ∈ ncs, nodeIDOfConfig nc₁ = nodeIDOfConfig nc₂ → nc₁ = nc₂ := by
  intro nc₁ h₁ nc₂ h₂ h
  have hidxeq : nc₁.node_index = nc₂.node_index := congrArg NodeID.node_index h
  exact List.inj_on_of_nodup_map hidx h₁ h₂ hidxeq

theorem groups_pairwise_disjoint (scope : LocationScope) (ncs : List NodeConfig)
    (hidx : (ncs.map NodeConfig.node_index).Nodup) :
    (group_nodes_by_scope scope ncs).Pairwise
      (fun g₁ g₂ => ∀ x, x ∈ g₁ → x ∉ g₂) := by
  unfold group_nodes_by_scope emitGroups
  rw [List.Perm.pairwise_iff (fun h x hx₂ hx₁ => h x hx₁ hx₂)
    (List.perm_insertionSort groupLE
      ((accumulateGroups scope ncs).map fun kv => sortMembers kv.2))]
  rw [List.pairwise_map]
  have hkeys : (accumulateGroups scope ncs).Pairwise
      (fun kv₁ kv₂ => kv₁.1 ≠ kv₂.1) :=
    List.pairwise_map.mp (nodup_keys_accumulate scope ncs)
  refine List.Pairwise.imp_of_mem ?_ hkeys
  intro kv₁ kv₂ h₁ h₂ hne x hx₁ hx₂
  rw [mem_sortMembers] at hx₁ hx₂
  obtain ⟨k₁, vs₁⟩ := kv₁
  obtain ⟨k₂, vs₂⟩ := kv₂
  have e₁ : groupFor (accumulateGroups scope ncs) k₁ = vs₁ :=
    groupFor_of_mem _ (nodup_keys_accumulate scope ncs) h₁
  have e₂ : groupFor (accumulateGroups scope ncs) k₂ = vs₂ :=
    groupFor_of_mem _ (nodup_keys_accumulate scope ncs) h₂
  obtain ⟨nc₁, hnc₁, hkey₁, hid₁⟩ :=
    (mem_groupFor_accumulate scope ncs k₁ x).mp (e₁ ▸ hx₁)
  obtain ⟨nc₂, hnc₂, hkey₂, hid₂⟩ :=
    (mem_groupFor_accumulate scope ncs k₂ x).mp (e₂ ▸ hx₂)
  have : nc₁ = nc₂ :=
    config_injOn ncs hidx nc₁ hnc₁ nc₂ hnc₂ (hid₁.trans hid₂.symm)
  exact hne (by simpa using (hkey₁.symm.trans (this ▸ hkey₂)))

theorem groups_nonempty (scope : LocationScope) (ncs : List NodeConfig) :
    ∀ g ∈ group_nodes_by_scope scope ncs, g ≠ [] := by
  intro g hg
  obtain ⟨kv, hkv, rfl⟩ := (mem_group_iff scope ncs g).mp hg
  obtain ⟨k, vs⟩ := kv
  have e : groupFor (accumulateGroups scope ncs) k = vs :=
    groupFor_of_mem _ (nodup_keys_accumulate scope ncs) hkv
  have hk : k ∈ (accumulateGroups scope ncs).map Prod.fst :=
    List.mem_map.mpr ⟨(k, vs), hkv, rfl⟩
  obtain ⟨nc, hnc, hkey⟩ := (mem_keys_accumulate scope ncs k).mp hk
  have hmem : nodeIDOfConfig nc ∈ vs :=
    e ▸ (mem_groupFor_accumulate scope ncs k _).mpr ⟨nc, hnc, hkey, rfl⟩
  intro hnil
  have hnil' : sortMembers vs = [] := hnil
  have hp : (sortMembers vs).Perm vs := List.perm_insertionSort nodeLE vs
  rw [hnil'] at hp
  rw [hp.symm.eq_nil] at hmem
  cases hmem

theorem sorted_member_groups (scope : LocationScope) (ncs : List NodeConfig) :
    ∀ g ∈ group_nodes_by_scope scope ncs, List.Sorted nodeLE g := by
  intro g hg
  obtain ⟨kv, _, rfl⟩ := (mem_group_iff scope ncs g).mp hg
  exact List.sorted_insertionSort nodeLE kv.2

theorem sorted_group_sequence (scope : LocationScope) (ncs : List NodeConfig) :
    List.Sorted groupLE (group_nodes_by_scope scope ncs) :=
  List.sorted_insertionSort groupLE _

theorem headIndex_mem (g : List NodeID) (hg : g ≠ []) :
    ∃ x ∈ g, x.node_index = headIndex g := by
  cases g with
  | nil => exact absurd rfl hg
  | cons x t => exact ⟨x, List.mem_cons_self x t, rfl⟩

theorem nodup_headIndex_groups (scope : LocationScope) (ncs : List NodeConfig)
    (hidx : (ncs.map NodeConfig.node_index).Nodup) :
    ((group_nodes_by_scope scope ncs).map headIndex).Nodup := by
  rw [List.Nodup, List.pairwise_map]
  refine List.Pairwise.imp_of_mem ?_ (groups_pairwise_disjoint scope ncs hidx)
  intro g₁ g₂ h₁ h₂ hdis heq
  obtain ⟨x₁, hx₁, hi₁⟩ := headIndex_mem g₁ (groups_nonempty scope ncs g₁ h₁)
  obtain ⟨x₂, hx₂, hi₂⟩ := headIndex_mem g₂ (groups_nonempty scope ncs g₂ h₂)
  obtain ⟨nc₁, hnc₁, hid₁⟩ := (mem_flatten_groups scope ncs x₁).mp
    (List.mem_flatten.mpr ⟨g₁, h₁, hx₁⟩)
  obtain ⟨nc₂, hnc₂, hid₂⟩ := (mem_flatten_groups scope ncs x₂).mp
    (List.mem_flatten.mpr ⟨g₂, h₂, hx₂⟩)
  have hieq : nc₁.node_index = nc₂.node_index := by
    have e₁ : nc₁.node_index = x₁.node_index := congrArg NodeID.node_index hid₁
    have e₂ : nc₂.node_index = x₂.node_index := congrArg NodeID.node_index hid₂
    rw [e₁, e₂, hi₁, hi₂, heq]
  have hnceq : nc₁ = nc₂ := List.inj_on_of_nodup_map hidx hnc₁ hnc₂ hieq
  have hxeq : x₁ = x₂ := hid₁ ▸ hnceq ▸ hid₂
  exact hdis x₁ hx₁ (hxeq ▸ hx₂)

theorem perm_sorted_by_key_eq {α : Type} (f : α → Nat) {l₁ l₂ : List α}
    (hp : l₁.Perm l₂)
    (h₁ : List.Sorted (fun a b => f a ≤ f b) l₁)
    (h₂ : List.Sorted (fun a b => f a ≤ f b) l₂)
    (hn : (l₁.map f).Nodup) : l₁ = l₂ := by
  have hn₂ : (l₂.map f).Nodup := ((hp.map f).nodup_iff).mp hn
  have hne₁ : l₁.Pairwise fun a b => f a ≠ f b := List.pairwise_map.mp hn
  have hne₂ : l₂.Pairwise fun a b => f a ≠ f b := List.pairwise_map.mp hn₂
  have hs₁ : List.Sorted (fun a b => f a < f b) l₁ :=
    (List.Pairwise.and h₁ hne₁).imp fun h => Nat.lt_of_le_of_ne h.1 h.2
  have hs₂ : List.Sorted (fun a b => f a < f b) l₂ :=
    (List.Pairwise.and h₂ hne₂).imp fun h => Nat.lt_of_le_of_ne h.1 h.2
  haveI : IsAntisymm α fun a b => f a < f b :=
    ⟨fun _ _ hab hba => absurd (Nat.lt_trans hab hba) (Nat.lt_irrefl _)⟩
  exact List.eq_of_perm_of_sorted hp hs₁ hs₂

theorem nodup_member_indices (scope : LocationScope) (ncs : List NodeConfig)
    (hidx : (ncs.map NodeConfig.node_index).Nodup) (k : GroupKey) :
    ((groupFor (accumulateGroups scope ncs) k).map NodeID.node_index).Nodup := by
  refine List.Nodup.map_on ?_ (nodup_groupFor_accumulate scope ncs k)
  intro x hx y hy hxy
  obtain ⟨nc₁, h₁, _, hid₁⟩ := (mem_groupFor_accumulate scope ncs k x).mp hx
  obtain ⟨nc₂, h₂, _, hid₂⟩ := (mem_groupFor_accumulate scope ncs k y).mp hy
  have hieq : nc₁.node_index = nc₂.node_index := by
    have e₁ : nc₁.node_index = x.node_index := congrArg NodeID.node_index hid₁
    have e₂ : nc₂.node_index = y.node_index := congrArg NodeID.node_index hid₂
    rw [e₁, e₂, hxy]
  have hnceq : nc₁ = nc₂ := List.inj_on_of_nodup_map hidx h₁ h₂ hieq
  exact hid₁ ▸ hnceq ▸ hid₂

theorem sortMembers_congr (vs₁ vs₂ : List NodeID) (hp : vs₁.Perm vs₂)
    (hn : (vs₁.map NodeID.node_index).Nodup) :
    sortMembers vs₁ = sortMembers vs₂ := by
  refine perm_sorted_by_key_eq NodeID.node_index ?_ ?_ ?_ ?_
  · exact (List.perm_insertionSort nodeLE vs₁).trans
      (hp.trans (List.perm_insertionSort nodeLE vs₂).symm)
  · exact List.sorted_insertionSort nodeLE vs₁
  · exact List.sorted_insertionSort nodeLE vs₂
  · exact ((List.perm_insertionSort nodeLE vs₁).map NodeID.node_index).nodup_iff.mpr hn

/-- C1: for every input with pairwise-distinct node indices and every scope,
the returned groups partition the input exactly: the union of group members
is the set of input node identities, and the groups are pairwise disjoint,
so every node appears in exactly one group. -/
theorem group_nodes_by_scope_partitions (scope : LocationScope)
    (ncs : List NodeConfig) (hidx : (ncs.map NodeConfig.node_index).Nodup) :
    (∀ x : NodeID, x ∈ (group_nodes_by_scope scope ncs).flatten ↔
        ∃ nc ∈ ncs, nodeIDOfConfig nc = x) ∧
      (group_nodes_by_scope scope ncs).Pairwise
        (fun g₁ g₂ => ∀ x, x ∈ g₁ → x ∉ g₂) :=
  ⟨fun x => mem_flatten_groups scope ncs x, groups_pairwise_disjoint scope ncs hidx⟩

/-- Witness for C1 at the four-node scenario input. -/
theorem group_nodes_by_scope_partitions_witness :
    (([ncA, ncB, ncC, ncD].map NodeConfig.node_index).Nodup) ∧
      (nodeIDOfConfig ncA ∈
          (group_nodes_by_scope .RACK [ncA, ncB, ncC, ncD]).flatten ↔
        ∃ nc ∈ [ncA, ncB, ncC, ncD], nodeIDOfConfig nc = nodeIDOfConfig ncA) :=
  ⟨by decide,
    (group_nodes_by_scope_partitions .RACK [ncA, ncB, ncC, ncD] (by decide)).1 _⟩

theorem map_sortMembers_as_keys (scope : LocationScope) (ncs : List NodeConfig) :
    ((accumulateGroups scope ncs).map fun kv => sortMembers kv.2) =
      ((accumulateGroups scope ncs).map Prod.fst).map
        (fun k => sortMembers (groupFor (accumulateGroups scope ncs) k)) := by
  rw [List.map_map]
  refine List.map_congr_left ?_
  intro kv hkv
  obtain ⟨k, vs⟩ := kv
  have e : groupFor (accumulateGroups scope ncs) k = vs :=
    groupFor_of_mem _ (nodup_keys_accumulate scope ncs) hkv
  simp [Function.comp, e]

theorem group_nodes_by_scope_perm_input (scope : LocationScope)
    (ncs ncs' : List NodeConfig)
    (hidx : (ncs.map NodeConfig.node_index).Nodup) (hp : ncs'.Perm ncs) :
    group_nodes_by_scope scope ncs' = group_nodes_by_scope scope ncs := by
  have hidx' : (ncs'.map NodeConfig.node_index).Nodup :=
    ((hp.map NodeConfig.node_index).nodup_iff).mpr hidx
  have hkeys : ((accumulateGroups scope ncs').map Prod.fst).Perm
      ((accumulateGroups scope ncs).map Prod.fst) := by
    rw [List.perm_ext_iff_of_nodup (nodup_keys_accumulate scope ncs')
      (nodup_keys_accumulate scope ncs)]
    intro k
    rw [mem_keys_accumulate, mem_keys_accumulate]
    constructor <;> rintro ⟨nc, hnc, hk⟩
    · exact ⟨nc, hp.mem_iff.mp hnc, hk⟩
    · exact ⟨nc, hp.mem_iff.mpr hnc, hk⟩
  have hgroups : ∀ k, (groupFor (accumulateGroups scope ncs') k).Perm
      (groupFor (accumulateGroups scope ncs) k) := by
    intro k
    rw [List.perm_ext_iff_of_nodup (nodup_groupFor_accumulate scope ncs' k)
      (nodup_groupFor_accumulate scope ncs k)]
    intro x
    rw [mem_groupFor_accumulate, mem_groupFor_accumulate]
    constructor <;> rintro ⟨nc, hnc, hk, hid⟩
    · exact ⟨nc, hp.mem_iff.mp hnc, hk, hid⟩
    · exact ⟨nc, hp.mem_iff.mpr hnc, hk, hid⟩
  have hfun : ∀ k ∈ (accumulateGroups scope ncs').map Prod.fst,
      sortMembers (groupFor (accumulateGroups scope ncs') k) =
        sortMembers (groupFor (accumulateGroups scope ncs) k) := by
    intro k _
    exact sortMembers_congr _ _ (hgroups k) (nodup_member_indices scope ncs' hidx' k)
  have hLperm : ((accumulateGroups scope ncs').map fun kv => sortMembers kv.2).Perm
      ((accumulateGroups scope ncs).map fun kv => sortMembers kv.2) := by
    rw [map_sortMembers_as_keys scope ncs', map_sortMembers_as_keys scope ncs,
      List.map_congr_left hfun]
    exact hkeys.map _
  have hfinal : (group_nodes_by_scope scope ncs').Perm
      (group_nodes_by_scope scope ncs) := by
    unfold group_nodes_by_scope emitGroups
    exact (List.perm_insertionSort groupLE _).trans
      (hLperm.trans (List.perm_insertionSort groupLE _).symm)
  refine perm_sorted_by_key_eq headIndex hfinal ?_ ?_ ?_
  · exact sorted_group_sequence scope ncs'
  · exact sorted_group_sequence scope ncs
  · exact nodup_headIndex_groups scope ncs' hidx'

/-- C5: for inputs with pairwise-distinct node indices (the stated data-model
invariant), the output is canonical and deterministic: every group is
nonempty and sorted ascending by node index, the group sequence is sorted
ascending by the index of the first (smallest) member of each group, and the
output is invariant under any reordering of the accumulated input. -/
theorem group_nodes_by_scope_canonical (scope : LocationScope)
    (ncs : List NodeConfig) (hidx : (ncs.map NodeConfig.node_index).Nodup) :
    (∀ g ∈ group_nodes_by_scope scope ncs, g ≠ [] ∧ List.Sorted nodeLE g) ∧
      List.Sorted groupLE (group_nodes_by_scope scope ncs) ∧
      ∀ ncs' : List NodeConfig, ncs'.Perm ncs →
        group_nodes_by_scope scope ncs' = group_nodes_by_scope scope ncs :=
  ⟨fun g hg => ⟨groups_nonempty scope ncs g hg, sorted_member_groups scope ncs g hg⟩,
    sorted_group_sequence scope ncs,
    fun ncs' hp => group_nodes_by_scope_perm_input scope ncs ncs' hidx hp⟩

/-- Witness for C5: reversing a concrete two-node input leaves the output
unchanged. -/
theorem group_nodes_by_scope_canonical_witness :
    (([ncA, ncB].map NodeConfig.node_index).Nodup) ∧
      group_nodes_by_scope .RACK [ncB, ncA] = group_nodes_by_scope .RACK [ncA, ncB] :=
  ⟨by decide,
    (group_nodes_by_scope_canonical .RACK [ncA, ncB] (by decide)).2.2 [ncB, ncA]
      (List.Perm.swap ncA ncB [])⟩

theorem filter_eq_singleton {α : Type} (p : α → Bool) (l : List α) (a : α)
    (ha : a ∈ l) (hp : ∀ x ∈ l, p x = true ↔ x = a) (hl : l.Nodup) :
    l.filter p = [a] := by
  induction l with
  | nil => cases ha
  | cons b t ih =>
    have hnd := List.nodup_cons.mp hl
    rcases List.mem_cons.mp ha with rfl | hat
    · have hpb : p a = true := (hp a (List.mem_cons_self a t)).mpr rfl
      rw [List.filter_cons, if_pos hpb]
      have ht : t.filter p = [] := by
        rw [List.filter_eq_nil_iff]
        intro x hx hpx
        have hxa := (hp x (List.mem_cons_of_mem a hx)).mp hpx
        subst hxa
        exact hnd.1 hx
      rw [ht]
    · have hpb : ¬p b = true := by
        intro hc
        have hba := (hp b (List.mem_cons_self b t)).mp hc
        subst hba
        exact hnd.1 hat
      rw [List.filter_cons, if_neg hpb]
      exact ih hat (fun x hx => hp x (List.mem_cons_of_mem b hx)) hnd.2

/-- C6: with scope NODE and pairwise-distinct node indices, the output has
exactly one group per input node, and every group is a singleton holding one
input node identity. -/
theorem node_scope_singleton_groups (ncs : List NodeConfig)
    (hidx : (ncs.map NodeConfig.node_index).Nodup) :
    (group_nodes_by_scope .NODE ncs).length = ncs.length ∧
      ∀ g ∈ group_nodes_by_scope .NODE ncs, ∃ nc ∈ ncs, g = [nodeIDOfConfig nc] := by
  have hkeymap : ncs.map (locationOf .NODE) =
      (ncs.map NodeConfig.node_index).map GroupKey.byNode := by
    rw [List.map_map]
    exact List.map_congr_left fun nc _ => rfl
  have hkeynodup : (ncs.map (locationOf .NODE)).Nodup := by
    rw [hkeymap]
    exact hidx.map fun _ _ hxy => GroupKey.byNode.inj hxy
  constructor
  · have h1 : (group_nodes_by_scope .NODE ncs).length =
        ((accumulateGroups .NODE ncs).map fun kv => sortMembers kv.2).length :=
      (List.perm_insertionSort groupLE _).length_eq
    rw [h1, List.length_map]
    have h2 : (accumulateGroups .NODE ncs).length =
        ((accumulateGroups .NODE ncs).map Prod.fst).length :=
      (List.length_map _ _).symm
    rw [h2, keys_accumulate, dedupKeepFirst_of_nodup _ hkeynodup, List.length_map]
  · intro g hg
    obtain ⟨⟨k, vs⟩, hkv, rfl⟩ := (mem_group_iff _ ncs g).mp hg
    have e : groupFor (accumulateGroups .NODE ncs) k = vs :=
      groupFor_of_mem _ (nodup_keys_accumulate _ ncs) hkv
    have hk : k ∈ (accumulateGroups .NODE ncs).map Prod.fst :=
      List.mem_map.mpr ⟨(k, vs), hkv, rfl⟩
    obtain ⟨nc₀, hnc₀, hkey₀⟩ := (mem_keys_accumulate _ ncs k).mp hk
    refine ⟨nc₀, hnc₀, ?_⟩
    have hfil : (ncs.filter fun nc => decide (locationOf .NODE nc = k)) = [nc₀] := by
      refine filter_eq_singleton _ ncs nc₀ hnc₀ ?_ (List.Nodup.of_map _ hidx)
      intro x hx
      constructor
      · intro hpx
        have hxk : locationOf .NODE x = k := of_decide_eq_true hpx
        have hieq : x.node_index = nc₀.node_index := by
          have h₁ : GroupKey.byNode x.node_index = k := hxk
          have h₂ : GroupKey.byNode nc₀.node_index = k := hkey₀
          exact GroupKey.byNode.inj (h₁.trans h₂.symm)
        exact List.inj_on_of_nodup_map hidx hx hnc₀ hieq
      · rintro rfl
        exact decide_eq_true hkey₀
    have hvs : vs = [nodeIDOfConfig nc₀] := by
      rw [← e, groupFor_accumulate, hfil]
      rfl
    rw [show ((k, vs).2 : List NodeID) = vs from rfl, hvs]
    rfl

/-- Witness for C6 at a concrete two-node input. -/
theorem node_scope_singleton_groups_witness :
    (([ncA, ncB].map NodeConfig.node_index).Nodup) ∧
      (group_nodes_by_scope .NODE [ncA, ncB]).length =
        ([ncA, ncB] : List NodeConfig).length :=
  ⟨by decide, (node_scope_singleton_groups [ncA, ncB] (by decide)).1⟩

theorem sum_map_key_indicator (acc : List (GroupKey × List NodeID)) (K : GroupKey)
    (hnd : (acc.map Prod.fst).Nodup) (hm : K ∈ acc.map Prod.fst) :
    (acc.map fun kv => if kv.1 = K then 1 else 0).sum = 1 := by
  induction acc with
  | nil => simp at hm
  | cons p rest ih =>
    obtain ⟨k₀, vs₀⟩ := p
    rw [List.map_cons] at hnd hm
    have hnd₁ := (List.nodup_cons.mp hnd).1
    have hnd₂ := (List.nodup_cons.mp hnd).2
    rw [List.map_cons, List.sum_cons]
    by_cases h : k₀ = K
    · have hz : ∀ kv ∈ rest, (if kv.1 = K then (1 : Nat) else 0) = 0 := by
        intro kv hkv
        rw [if_neg]
        intro hc
        have hmem : kv.1 ∈ rest.map Prod.fst := List.mem_map.mpr ⟨kv, hkv, rfl⟩
        rw [hc, ← h] at hmem
        exact hnd₁ hmem
      have hzero : (rest.map fun kv => if kv.1 = K then (1 : Nat) else 0).sum = 0 := by
        refine List.sum_eq_zero ?_
        intro x hx
        obtain ⟨kv, hkv, rfl⟩ := List.mem_map.mp hx
        exact hz kv hkv
      rw [hzero, if_pos h]
    · rcases List.mem_cons.mp hm with heq | hmr
      · exact absurd heq.symm h
      · rw [if_neg h, Nat.zero_add]
        exact ih hnd₂ hmr

/-- C9: when every input entry carrying a given node identity yields one and
the same location key, that identity appears exactly once in the flattened
output (set accumulation deduplicates), and on a concrete duplicated input
the total member count is strictly below the input length. -/
theorem duplicate_identity_collapsed (scope : LocationScope)
    (ncs : List NodeConfig) (d : NodeID) (K : GroupKey)
    (hocc : ∃ nc ∈ ncs, nodeIDOfConfig nc = d)
    (hkey : ∀ nc ∈ ncs, nodeIDOfConfig nc = d → locationOf scope nc = K) :
    List.count d (group_nodes_by_scope scope ncs).flatten = 1 ∧
      (group_nodes_by_scope .RACK [ncA, ncA]).flatten.length <
        ([ncA, ncA] : List NodeConfig).length := by
  constructor
  · have h1 : List.count d (group_nodes_by_scope scope ncs).flatten =
        List.count d
          ((accumulateGroups scope ncs).map fun kv => sortMembers kv.2).flatten := by
      unfold group_nodes_by_scope emitGroups
      exact ((List.perm_insertionSort groupLE _).flatten).count_eq d
    rw [h1, List.count_flatten, List.map_map]
    have h2 : ∀ kv ∈ accumulateGroups scope ncs,
        (List.count d ∘ fun kv => sortMembers kv.2) kv =
          (if kv.1 = K then 1 else 0) := by
      intro kv hkv
      obtain ⟨k, vs⟩ := kv
      have e : groupFor (accumulateGroups scope ncs) k = vs :=
        groupFor_of_mem _ (nodup_keys_accumulate scope ncs) hkv
      have hcnt : List.count d (sortMembers vs) = List.count d vs :=
        (List.perm_insertionSort nodeLE vs).count_eq d
      show List.count d (sortMembers vs) = if k = K then 1 else 0
      by_cases hk : k = K
      · obtain ⟨nc, hnc, hid⟩ := hocc
        have hdm : d ∈ vs :=
          e ▸ (mem_groupFor_accumulate scope ncs k d).mpr
            ⟨nc, hnc, by rw [hkey nc hnc hid, hk], hid⟩
        have hnd : vs.Nodup := e ▸ nodup_groupFor_accumulate scope ncs k
        rw [hcnt, if_pos hk]
        exact List.count_eq_one_of_mem hnd hdm
      · have hdm : d ∉ vs := by
          intro hc
          obtain ⟨nc, hnc, hkeq, hid⟩ :=
            (mem_groupFor_accumulate scope ncs k d).mp (e ▸ hc)
          exact hk (hkeq ▸ hkey nc hnc hid)
        rw [hcnt, if_neg hk]
        exact List.count_eq_zero.mpr hdm
    rw [List.map_congr_left h2]
    refine sum_map_key_indicator _ K (nodup_keys_accumulate scope ncs) ?_
    obtain ⟨nc, hnc, hid⟩ := hocc
    exact (mem_keys_accumulate scope ncs K).mpr ⟨nc, hnc, hkey nc hnc hid⟩
  · decide

/-- Witness for C9: a concrete input listing the same node twice. -/
theorem duplicate_identity_collapsed_witness :
    (∃ nc ∈ [ncA, ncA], nodeIDOfConfig nc = nodeIDOfConfig ncA) ∧
      List.count (nodeIDOfConfig ncA)
        (group_nodes_by_scope .RACK [ncA, ncA]).flatten = 1 :=
  ⟨⟨ncA, List.mem_cons_self ncA [ncA], rfl⟩,
    (duplicate_identity_collapsed .RACK [ncA, ncA] (nodeIDOfConfig ncA)
        (locationOf .RACK ncA) ⟨ncA, List.mem_cons_self ncA [ncA], rfl⟩
        (by
          intro nc hnc _
          rcases List.mem_cons.mp hnc with rfl | hm
          · rfl
          · rw [List.mem_singleton.mp hm])).1⟩

/-- C2: when the maintenance query fails with the NotSupported signal while
the node-config and node-state queries succeed, get_cluster_view returns a
view whose maintenance list is empty and whose config and state fields come
from the two successful responses; the operation does not fail. -/
theorem cluster_view_soft_maintenance_failure (ncr : NodesConfigResponse)
    (nsr : NodesStateResponse) :
    get_cluster_view (.ok ncr) (.ok nsr) (.error .notSupported) =
      .ok ⟨ncr.nodes, nsr.states, []⟩ := rfl

/-- C3: when the node-config query or the node-state query fails, no
ClusterView is returned, and the failing query error itself is propagated
whenever the maintenance result did not hard-fail (config inspected before
state). -/
theorem cluster_view_hard_failure
    (cfg : Except AdminError NodesConfigResponse)
    (st : Except AdminError NodesStateResponse)
    (mnt : Except AdminError MaintenancesResponse)
    (h : (∃ e, cfg = .error e) ∨ (∃ e, st = .error e)) :
    (∀ v, get_cluster_view cfg st mnt ≠ .ok v) ∧
      (∀ e, cfg = .error e → maintSoft mnt → get_cluster_view cfg st mnt = .error e) ∧
      (∀ e ncr, st = .error e → cfg = .ok ncr → maintSoft mnt →
        get_cluster_view cfg st mnt = .error e) := by
  refine ⟨?_, ?_, ?_⟩
  · intro v hv
    rcases mnt with e | r
    · rcases e with _ | c
      · rcases cfg with e₁ | ncr
        · exact absurd hv (by simp [get_cluster_view, finishClusterView])
        · rcases st with e₂ | nsr
          · exact absurd hv (by simp [get_cluster_view, finishClusterView])
          · rcases h with ⟨e, he⟩ | ⟨e, he⟩ <;> exact absurd he (by simp)
      · exact absurd hv (by simp [get_cluster_view])
    · rcases cfg with e₁ | ncr
      · exact absurd hv (by simp [get_cluster_view, finishClusterView])
      · rcases st with e₂ | nsr
        · exact absurd hv (by simp [get_cluster_view, finishClusterView])
        · rcases h with ⟨e, he⟩ | ⟨e, he⟩ <;> exact absurd he (by simp)
  · rintro e rfl hm
    rcases hm with rfl | ⟨r, rfl⟩ <;> rfl
  · rintro e ncr rfl rfl hm
    rcases hm with rfl | ⟨r, rfl⟩ <;> rfl

/-- Witness for C3 at a concrete input: a transport error on the node-config
query is propagated unchanged. -/
theorem cluster_view_hard_failure_witness :
    ((∃ e, (Except.error (AdminError.other 7) :
          Except AdminError NodesConfigResponse) = .error e) ∨
      (∃ e, (Except.ok ⟨[]⟩ : Except AdminError NodesStateResponse) = .error e)) ∧
      get_cluster_view (.error (.other 7)) (.ok ⟨[]⟩) (.ok ⟨[]⟩) = .error (.other 7) :=
  ⟨Or.inl ⟨_, rfl⟩,
    (cluster_view_hard_failure (.error (.other 7)) (.ok ⟨[]⟩) (.ok ⟨[]⟩)
        (Or.inl ⟨_, rfl⟩)).2.1 _ rfl (Or.inr ⟨_, rfl⟩)⟩

/-- C10: the maintenance result is inspected first, so a hard maintenance
error is the one propagated even when the node-config or node-state query
failed as well. -/
theorem cluster_view_maintenance_error_wins (c : Nat)
    (cfg : Except AdminError NodesConfigResponse)
    (st : Except AdminError NodesStateResponse)
    (h : (∃ e, cfg = .error e) ∨ (∃ e, st = .error e)) :
    get_cluster_view cfg st (.error (.other c)) = .error (.other c) := rfl

/-- Witness for C10 at a concrete input: the hard maintenance error wins over
a simultaneous node-config error. -/
theorem cluster_view_maintenance_error_wins_witness :
    get_cluster_view (.error (.other 9)) (.ok ⟨[]⟩) (.error (.other 2)) =
      .error (.other 2) :=
  cluster_view_maintenance_error_wins 2 (.error (.other 9)) (.ok ⟨[]⟩)
    (Or.inl ⟨_, rfl⟩)

/-- C8: both lookup helpers fail with the not-found error exactly when the
filtered query returned an empty node list, and otherwise return the node
built from the first matching record, raising no error. -/
theorem node_lookup_not_found_iff (resp : NodesConfigResponse) :
    (get_node_by_node_index resp = .error .nodeNotFound ↔ resp.nodes = []) ∧
      (get_node_by_name resp = .error .nodeNotFound ↔ resp.nodes = []) ∧
      (∀ nc rest, resp.nodes = nc :: rest →
        get_node_by_node_index resp = .ok (get_node_by_node_config nc) ∧
          get_node_by_name resp = .ok (get_node_by_node_config nc)) := by
  obtain ⟨nodes⟩ := resp
  cases nodes with
  | nil =>
    refine ⟨by simp [get_node_by_node_index], by simp [get_node_by_name], ?_⟩
    intro nc rest h
    exact absurd h (by simp)
  | cons nc₀ rest₀ =>
    refine ⟨by simp [get_node_by_node_index], by simp [get_node_by_name], ?_⟩
    intro nc rest h
    obtain ⟨rfl, rfl⟩ : nc₀ = nc ∧ rest₀ = rest := by
      simpa using h
    exact ⟨rfl, rfl⟩

/-- Witness for C8 at a concrete input: a one-element response yields the
node built from that record. -/
theorem node_lookup_not_found_iff_witness :
    get_node_by_node_index ⟨[ncA]⟩ = .ok (get_node_by_node_config ncA) ∧
      get_node_by_name ⟨[ncA]⟩ = .ok (get_node_by_node_config ncA) :=
  (node_lookup_not_found_iff ⟨[ncA]⟩).2.2 ncA [] rfl

/-- C4: for every scope other than NODE, the key computed by
group_nodes_by_scope is exactly the tuple the spec describes: all defined
levels with value at least the target value, coarsest first, with the node
label at each kept level and the empty string for an absent label. -/
theorem location_key_refines_spec (nc : NodeConfig) (scope : LocationScope)
    (h : scope ≠ .NODE) :
    locationOf scope nc = GroupKey.byLocation (specLocationKey scope nc) := by
  cases scope with
  | NODE => exact absurd rfl h
  | RACK => rfl
  | ROW => rfl
  | DATACENTER => rfl
  | REGION => rfl

/-- Witness for C4 at a concrete input: the RACK-scope key of node A. -/
theorem location_key_refines_spec_witness :
    LocationScope.RACK ≠ LocationScope.NODE ∧
      locationOf .RACK ncA = GroupKey.byLocation (specLocationKey .RACK ncA) :=
  ⟨by decide, location_key_refines_spec ncA .RACK (by decide)⟩

/-- C7: on the four-node scenario with target scope RACK, the output is
exactly the three groups sharing a datacenter-rack prefix, ordered by the
smallest member index. -/
theorem rack_scope_grouping_scenario :
    group_nodes_by_scope .RACK [ncA, ncB, ncC, ncD] =
      [[nodeIDOfConfig ncA, nodeIDOfConfig ncB],
        [nodeIDOfConfig ncC], [nodeIDOfConfig ncD]] := by
  decide

end Ldops
